import Mathlib

/-!
Shallow embedding of the reverse-auction engine in `app.py` (auction
lifecycle, bid arbitration, winner resolution).  The database rows touched
by the engine are modelled as lists of records; every SQL statement of the
source becomes an explicit list operation.  Monetary amounts and the
decrement step are modelled as `Int` (the spec's fixed-point reading);
timestamps are modelled as `Int` minutes, so `timedelta(minutes=d)` is the
addition of `d`.  Nullable columns are `Option`.
-/

namespace RA3

/-- Auction lifecycle status, the `status` column
(`'SCHEDULED' | 'LIVE' | 'CLOSED'`). -/
inductive Status where
  | SCHEDULED
  | LIVE
  | CLOSED
deriving DecidableEq, Repr

/-- A row of the `auctions` table.  `start_price`, `start_time` and
`end_time` are nullable columns. -/
structure Auction where
  id : Nat
  buyerId : Nat
  title : String
  decrementStep : Int
  durationMinutes : Int
  startPrice : Option Int
  startTime : Option Int
  endTime : Option Int
  status : Status
deriving DecidableEq, Repr

/-- A row of the `items` table.  The `start_price` column referenced by the
query in `place_bid` (`i.start_price`) is never written by `add_item`, so it
is nullable here as well. -/
structure Item where
  id : Nat
  auctionId : Nat
  description : String
  quantity : Int
  uom : String
  startPrice : Option Int
deriving DecidableEq, Repr

/-- A row of the `bids` table. -/
structure Bid where
  itemId : Nat
  supplierId : Nat
  bidValue : Int
  bidTime : Int
deriving DecidableEq, Repr

/-- The database state seen by the engine: the three tables, each in row
insertion order (`INSERT` appends). -/
structure DB where
  auctions : List Auction
  items : List Item
  bids : List Bid
deriving DecidableEq, Repr

/-- `SELECT * FROM auctions WHERE id=%s` (first matching row). -/
def findAuction (db : DB) (auctionId : Nat) : Option Auction :=
  db.auctions.find? (fun a => a.id = auctionId)

/-- `SELECT * FROM items WHERE id=%s` (first matching row). -/
def findItem (db : DB) (itemId : Nat) : Option Item :=
  db.items.find? (fun i => i.id = itemId)

/-- `UPDATE auctions SET ... WHERE id=%s`: apply `f` to every row whose id
matches. -/
def updateAuction (db : DB) (auctionId : Nat) (f : Auction → Auction) : DB :=
  { db with auctions := db.auctions.map (fun a => if a.id = auctionId then f a else a) }

/-- `SELECT ... FROM bids b WHERE b.item_id=%s`, in insertion order. -/
def bidsForItem (db : DB) (itemId : Nat) : List Bid :=
  db.bids.filter (fun b => b.itemId = itemId)

/-- SQL `MIN` over a list of values: `none` on the empty list. -/
def minValue? : List Int → Option Int
  | [] => none
  | v :: vs =>
    some (match minValue? vs with
      | none => v
      | some m => min v m)

/-- The accepted bid values of an item, ordered by acceptance (insertion
order of the `bids` table). -/
def acceptedValues (db : DB) (itemId : Nat) : List Int :=
  (bidsForItem db itemId).map Bid.bidValue

/-- `SELECT MIN(b.bid_value) FROM bids b WHERE b.item_id=%s`. -/
def minBidValue (db : DB) (itemId : Nat) : Option Int :=
  minValue? (acceptedValues db itemId)

/-- `create_auction` (app.py:56-63): inserts a SCHEDULED auction with
`start_time = now` and `end_time = now + duration` and returns its id.
The id generated by the store is passed in as `newId`. -/
def create_auction (db : DB) (newId buyerId : Nat) (title : String)
    (decrementStep durationMinutes startPrice : Int) (now : Int) : DB × Nat :=
  let endTime := now + durationMinutes
  ({ db with
      auctions := db.auctions ++
        [{ id := newId, buyerId := buyerId, title := title,
           decrementStep := decrementStep, durationMinutes := durationMinutes,
           startPrice := some startPrice, startTime := some now,
           endTime := some endTime, status := Status.SCHEDULED }] },
   newId)

/-- `add_item` (app.py:66-70): inserts an item row; the `start_price`
column is not in the insert list, so it stays NULL. -/
def add_item (db : DB) (newId auctionId : Nat) (description : String)
    (quantity : Int) (uom : String) : DB :=
  { db with
      items := db.items ++
        [{ id := newId, auctionId := auctionId, description := description,
           quantity := quantity, uom := uom, startPrice := none }] }

/-- `start_auction` (app.py:73-79): unconditionally sets `status='LIVE'`
and `start_time=now`, then (if the auction exists) sets
`end_time = now + duration_minutes`.  There is no status precondition. -/
def start_auction (db : DB) (auctionId : Nat) (now : Int) : DB :=
  let db1 := updateAuction db auctionId
    (fun a => { a with status := Status.LIVE, startTime := some now })
  match findAuction db1 auctionId with
  | none => db1
  | some a =>
    updateAuction db1 auctionId
      (fun x => { x with endTime := some (now + a.durationMinutes) })

/-- `close_if_expired` (app.py:82-90): if the auction exists, is LIVE, has
a non-NULL `end_time` and `now >= end_time`, set `status='CLOSED'`;
otherwise do nothing. -/
def close_if_expired (db : DB) (auctionId : Nat) (now : Int) : DB :=
  match findAuction db auctionId with
  | none => db
  | some a =>
    if a.status = Status.LIVE then
      match a.endTime with
      | some e => if e ≤ now then
          updateAuction db auctionId (fun x => { x with status := Status.CLOSED })
        else db
      | none => db
    else db

def invalidItemMsg : String := "Invalid item"

def auctionNotLiveMsg : String := "Auction is not live"

def cannotDeterminePriceMsg : String := "Cannot determine current price"

def bidNotLowerMsg : String := "Bid must be less than current minimum (reverse auction)"

def belowMinimumStepMsg (decrement : Int) : String :=
  "Bid must reduce price by at least the decrement step (" ++ toString decrement ++ ")"

def notStepMultipleMsg (decrement : Int) : String :=
  "Bid decrease must be in multiples of " ++ toString decrement

/-- The current-minimum resolution of `place_bid` (app.py:95,104-108):
`COALESCE(MIN(b.bid_value), i.start_price)` from the join query, and when
that is NULL (`data.get('start_price')` is always `None` since the query
selects no `start_price` column) a second query falls back to the owning
auction's `start_price`. -/
def currentMinFor (db : DB) (itemId : Nat) (item : Item) (a : Auction) : Option Int :=
  ((minBidValue db itemId).orElse (fun _ => item.startPrice)).orElse
    (fun _ => a.startPrice)

/-- `place_bid` (app.py:93-122).  Returns the `(ok, message)` pair of the
source together with the resulting database state.  The join query fails
(`Invalid item`) when the item or its auction is missing; the status check
compares against LIVE only — `end_time` is never consulted; on acceptance a
bid row is appended with `bid_time = now`. -/
def place_bid (db : DB) (supplierId itemId : Nat) (bidValue : Int) (now : Int) :
    (Bool × String) × DB :=
  match findItem db itemId with
  | none => ((false, invalidItemMsg), db)
  | some item =>
    match findAuction db item.auctionId with
    | none => ((false, invalidItemMsg), db)
    | some a =>
      if a.status ≠ Status.LIVE then ((false, auctionNotLiveMsg), db)
      else
        let decrement := a.decrementStep
        match currentMinFor db itemId item a with
        | none => ((false, cannotDeterminePriceMsg), db)
        | some currentMin =>
          let diff := currentMin - bidValue
          if diff ≤ 0 then ((false, bidNotLowerMsg), db)
          else if diff < decrement then ((false, belowMinimumStepMsg decrement), db)
          else if diff % decrement ≠ 0 then ((false, notStepMultipleMsg decrement), db)
          else ((true, "Bid placed"),
            { db with bids := db.bids ++
                [{ itemId := itemId, supplierId := supplierId,
                   bidValue := bidValue, bidTime := now }] })

/-- `get_items` (app.py:125-126): the items of an auction joined with their
derived current minimum `COALESCE(MIN(b.bid_value), a.start_price)`. -/
def get_items (db : DB) (auctionId : Nat) : List (Item × Option Int) :=
  (db.items.filter (fun i => i.auctionId = auctionId)).filterMap (fun i =>
    (findAuction db i.auctionId).map (fun a =>
      (i, (minBidValue db i.id).orElse (fun _ => a.startPrice))))

/-- The winner query of `generate_pdf_summary` (app.py:152):
`SELECT ... WHERE b.item_id=%s ORDER BY b.bid_value ASC LIMIT 1` — the
accepted bid with the minimum value (first such row when values tie). -/
def winner_by_min (db : DB) (itemId : Nat) : Option Bid :=
  (bidsForItem db itemId).foldl
    (fun acc b =>
      match acc with
      | none => some b
      | some w => if b.bidValue < w.bidValue then some b else acc)
    none

/-- Modelled from the spec (§4.3 WinnerResolver): the winner is "simply the
most recently accepted bid" for the item.  Used only to compare against the
source's minimum-value query `winner_by_min`. -/
def winner_spec (db : DB) (itemId : Nat) : Option Bid :=
  (bidsForItem db itemId).getLast?

/-- The strictly-decreasing bid-history invariant: for every item, each
accepted bid value is strictly below every earlier accepted value. -/
def Inv (db : DB) : Prop :=
  ∀ itemId : Nat, (acceptedValues db itemId).Pairwise (fun x y => y < x)

/-- The status of an auction as stored. -/
def statusOf (db : DB) (auctionId : Nat) : Option Status :=
  (findAuction db auctionId).map Auction.status

/-! ### Concrete states used in scenarios and witnesses -/

/-- The §8 scenario auction: `start_price = 1000`, `step = 50`, LIVE, with
`end_time = 10`. -/
def scnAuction : Auction :=
  { id := 1, buyerId := 1, title := "Scenario", decrementStep := 50,
    durationMinutes := 10, startPrice := some 1000, startTime := some 0,
    endTime := some 10, status := Status.LIVE }

def scnItem : Item :=
  { id := 1, auctionId := 1, description := "widget", quantity := 1,
    uom := "NOS", startPrice := none }

def scnDB : DB := { auctions := [scnAuction], items := [scnItem], bids := [] }

def scnDB1 : DB := (place_bid scnDB 7 1 950 1).2

def scnDB2 : DB := (place_bid scnDB1 8 1 900 2).2

def scnDB3 : DB := (place_bid scnDB2 7 1 920 3).2

def scnDB4 : DB := (place_bid scnDB3 8 1 875 4).2

def scnDB5 : DB := (place_bid scnDB4 7 1 850 5).2

/-- The scenario auction already CLOSED, with one accepted bid of 900. -/
def closedAuction : Auction :=
  { id := 1, buyerId := 1, title := "Scenario", decrementStep := 50,
    durationMinutes := 10, startPrice := some 1000, startTime := some 0,
    endTime := some 10, status := Status.CLOSED }

def closedDB : DB :=
  { auctions := [closedAuction], items := [scnItem],
    bids := [{ itemId := 1, supplierId := 7, bidValue := 900, bidTime := 3 }] }

/-- A LIVE auction whose `start_price` column is NULL (and no bids), the
state exercising the `Cannot determine current price` branch. -/
def nullPriceAuction : Auction :=
  { id := 1, buyerId := 1, title := "NullPrice", decrementStep := 50,
    durationMinutes := 10, startPrice := none, startTime := some 0,
    endTime := some 10, status := Status.LIVE }

def nullPriceDB : DB :=
  { auctions := [nullPriceAuction], items := [scnItem], bids := [] }

def emptyDB : DB := { auctions := [], items := [], bids := [] }

/-! ### Basic lemmas about `minValue?` -/

theorem minValue?_eq_none {l : List Int} : minValue? l = none ↔ l = [] := by
  cases l <;> simp [minValue?]

theorem minValue?_mem {l : List Int} {m : Int} (h : minValue? l = some m) : m ∈ l := by
  induction l generalizing m with
  | nil => simp [minValue?] at h
  | cons v vs ih =>
    simp only [minValue?] at h
    cases hvs : minValue? vs with
    | none => rw [hvs] at h; simp at h; simp [h]
    | some m' =>
      rw [hvs] at h
      simp only [Option.some.injEq] at h
      rcases le_total v m' with hle | hle
      · rw [min_eq_left hle] at h; simp [h]
      · rw [min_eq_right hle] at h
        exact List.mem_cons_of_mem _ (h ▸ ih hvs)

theorem minValue?_le {l : List Int} {m : Int} (h : minValue? l = some m) :
    ∀ x ∈ l, m ≤ x := by
  induction l generalizing m with
  | nil => simp
  | cons v vs ih =>
    intro x hx
    simp only [minValue?] at h
    cases hvs : minValue? vs with
    | none =>
      rw [hvs] at h
      simp only [Option.some.injEq] at h
      rcases List.mem_cons.mp hx with rfl | hx'
      · exact le_of_eq h.symm
      · rw [minValue?_eq_none.mp hvs] at hx'
        simp at hx'
    | some m' =>
      rw [hvs] at h
      simp only [Option.some.injEq] at h
      rcases List.mem_cons.mp hx with rfl | hx'
      · exact h ▸ min_le_left _ _
      · exact le_trans (h ▸ min_le_right _ _) (ih hvs x hx')

theorem minValue?_append_singleton {l : List Int} {v : Int}
    (h : ∀ x ∈ l, v ≤ x) : minValue? (l ++ [v]) = some v := by
  induction l with
  | nil => simp [minValue?]
  | cons x xs ih =>
    have hx : v ≤ x := h x (by simp)
    have ih' : minValue? (xs.append [v]) = some v :=
      ih (fun y hy => h y (List.mem_cons_of_mem _ hy))
    simp only [List.cons_append, minValue?]
    rw [ih']
    dsimp only
    rw [min_eq_right hx]

/-! ### Structure of `place_bid` -/

/-- With the item and its LIVE auction resolved, `place_bid` is exactly the
decrement-rule cascade on `diff = current_min - bid_value`. -/
theorem place_bid_eq (db : DB) (s i : Nat) (v now : Int) (item : Item) (a : Auction)
    (hi : findItem db i = some item)
    (ha : findAuction db item.auctionId = some a)
    (hlive : a.status = Status.LIVE) :
    place_bid db s i v now =
      match currentMinFor db i item a with
      | none => ((false, cannotDeterminePriceMsg), db)
      | some cm =>
        if cm - v ≤ 0 then ((false, bidNotLowerMsg), db)
        else if cm - v < a.decrementStep then
          ((false, belowMinimumStepMsg a.decrementStep), db)
        else if (cm - v) % a.decrementStep ≠ 0 then
          ((false, notStepMultipleMsg a.decrementStep), db)
        else ((true, "Bid placed"),
          { db with bids := db.bids ++
              [{ itemId := i, supplierId := s, bidValue := v, bidTime := now }] }) := by
  unfold place_bid
  simp only [hi, ha, hlive]
  simp

/-- `place_bid` on a non-LIVE auction rejects with the fixed message and
leaves the database untouched. -/
theorem place_bid_not_live (db : DB) (s i : Nat) (v now : Int) (item : Item) (a : Auction)
    (hi : findItem db i = some item)
    (ha : findAuction db item.auctionId = some a)
    (hnl : a.status ≠ Status.LIVE) :
    place_bid db s i v now = ((false, auctionNotLiveMsg), db) := by
  unfold place_bid
  simp only [hi, ha]
  simp [hnl]

/-- Every run of `place_bid` either leaves the database unchanged or
returns `(true, "Bid placed")` and appends exactly the new bid row. -/
theorem place_bid_db_cases (db : DB) (s i : Nat) (v now : Int) :
    (place_bid db s i v now).2 = db ∨
    ((place_bid db s i v now).1 = (true, "Bid placed") ∧
      (place_bid db s i v now).2 =
        { db with bids := db.bids ++
            [{ itemId := i, supplierId := s, bidValue := v, bidTime := now }] }) := by
  unfold place_bid
  cases hi : findItem db i with
  | none => exact Or.inl rfl
  | some item =>
    dsimp only
    cases ha : findAuction db item.auctionId with
    | none => exact Or.inl rfl
    | some a =>
      dsimp only
      by_cases hlive : a.status = Status.LIVE
      · rw [if_neg (by simp [hlive])]
        cases hcm : currentMinFor db i item a with
        | none => exact Or.inl rfl
        | some cm =>
          dsimp only
          by_cases h1 : cm - v ≤ 0
          · rw [if_pos h1]; exact Or.inl rfl
          · rw [if_neg h1]
            by_cases h2 : cm - v < a.decrementStep
            · rw [if_pos h2]; exact Or.inl rfl
            · rw [if_neg h2]
              by_cases h3 : (cm - v) % a.decrementStep = 0
              · rw [if_neg (not_not.mpr h3)]
                exact Or.inr ⟨rfl, rfl⟩
              · rw [if_pos h3]
                exact Or.inl rfl
      · rw [if_pos hlive]
        exact Or.inl rfl

/-- Inversion of an accepted `place_bid`: all the guards of the accept path
hold and the database grew by exactly the new bid row. -/
theorem place_bid_accepted_inv (db : DB) (s i : Nat) (v now : Int)
    (hacc : (place_bid db s i v now).1.1 = true) :
    ∃ item a cm,
      findItem db i = some item ∧
      findAuction db item.auctionId = some a ∧
      a.status = Status.LIVE ∧
      currentMinFor db i item a = some cm ∧
      0 < cm - v ∧ a.decrementStep ≤ cm - v ∧ (cm - v) % a.decrementStep = 0 ∧
      (place_bid db s i v now).2 =
        { db with bids := db.bids ++
            [{ itemId := i, supplierId := s, bidValue := v, bidTime := now }] } := by
  cases hi : findItem db i with
  | none =>
    have heq : place_bid db s i v now = ((false, invalidItemMsg), db) := by
      unfold place_bid; rw [hi]
    rw [heq] at hacc; simp at hacc
  | some item =>
    cases ha : findAuction db item.auctionId with
    | none =>
      have heq : place_bid db s i v now = ((false, invalidItemMsg), db) := by
        unfold place_bid; simp only [hi]; rw [ha]
      rw [heq] at hacc; simp at hacc
    | some a =>
      by_cases hlive : a.status = Status.LIVE
      · rw [place_bid_eq db s i v now item a hi ha hlive] at hacc ⊢
        revert hacc
        cases hcm : currentMinFor db i item a with
        | none => intro hacc; simp at hacc
        | some cm =>
          intro hacc
          dsimp only at hacc ⊢
          by_cases h1 : cm - v ≤ 0
          · rw [if_pos h1] at hacc; simp at hacc
          · rw [if_neg h1] at hacc ⊢
            by_cases h2 : cm - v < a.decrementStep
            · rw [if_pos h2] at hacc; simp at hacc
            · rw [if_neg h2] at hacc ⊢
              by_cases h3 : (cm - v) % a.decrementStep = 0
              · rw [if_neg (not_not.mpr h3)]
                exact ⟨item, a, cm, rfl, ha, hlive, hcm,
                  lt_of_not_le h1, le_of_not_lt h2, h3, rfl⟩
              · rw [if_pos h3] at hacc; simp at hacc
      · rw [place_bid_not_live db s i v now item a hi ha hlive] at hacc
        simp at hacc

/-! ### Which operations touch which tables -/

theorem updateAuction_bids (db : DB) (aid : Nat) (f : Auction → Auction) :
    (updateAuction db aid f).bids = db.bids := rfl

theorem start_auction_bids (db : DB) (aid : Nat) (now : Int) :
    (start_auction db aid now).bids = db.bids := by
  unfold start_auction
  dsimp only
  cases findAuction (updateAuction db aid
      (fun a => { a with status := Status.LIVE, startTime := some now })) aid with
  | none => rfl
  | some a => rfl

theorem close_if_expired_bids (db : DB) (aid : Nat) (now : Int) :
    (close_if_expired db aid now).bids = db.bids := by
  unfold close_if_expired
  cases findAuction db aid with
  | none => rfl
  | some a =>
    dsimp only
    by_cases hl : a.status = Status.LIVE
    · rw [if_pos hl]
      cases a.endTime with
      | none => rfl
      | some e =>
        dsimp only
        by_cases he : e ≤ now
        · rw [if_pos he]; rfl
        · rw [if_neg he]
    · rw [if_neg hl]

theorem acceptedValues_of_bids_eq {db1 db2 : DB} (h : db1.bids = db2.bids) :
    acceptedValues db1 = acceptedValues db2 := by
  funext j
  unfold acceptedValues bidsForItem
  rw [h]

theorem acceptedValues_append (db : DB) (b : Bid) (j : Nat) :
    acceptedValues { db with bids := db.bids ++ [b] } j =
      acceptedValues db j ++ (if b.itemId = j then [b.bidValue] else []) := by
  unfold acceptedValues bidsForItem
  dsimp only
  rw [List.filter_append, List.map_append]
  congr 1
  by_cases hb : b.itemId = j
  · simp [hb]
  · simp [hb]

/-! ### `find?` through an id-preserving row update -/

theorem find?_map_update (l : List Auction) (aid j : Nat) (f : Auction → Auction)
    (hid : ∀ a, (f a).id = a.id) :
    (l.map (fun a => if a.id = aid then f a else a)).find? (fun a => a.id = j) =
      (l.find? (fun a => a.id = j)).map (fun a => if a.id = aid then f a else a) := by
  induction l with
  | nil => rfl
  | cons a l ih =>
    simp only [List.map_cons]
    by_cases hj : a.id = j
    · have hj2 : (if a.id = aid then f a else a).id = j := by
        by_cases haid : a.id = aid
        · rw [if_pos haid, hid]; exact hj
        · rw [if_neg haid]; exact hj
      rw [List.find?_cons_of_pos _ (by simp [hj2]),
        List.find?_cons_of_pos _ (by simp [hj])]
      rfl
    · have hj2 : (if a.id = aid then f a else a).id ≠ j := by
        by_cases haid : a.id = aid
        · rw [if_pos haid, hid]; exact hj
        · rw [if_neg haid]; exact hj
      rw [List.find?_cons_of_neg _ (by simp [hj2]),
        List.find?_cons_of_neg _ (by simp [hj]), ih]

theorem findAuction_updateAuction (db : DB) (aid j : Nat) (f : Auction → Auction)
    (hid : ∀ a, (f a).id = a.id) :
    findAuction (updateAuction db aid f) j =
      (findAuction db j).map (fun a => if a.id = aid then f a else a) := by
  unfold findAuction updateAuction
  exact find?_map_update db.auctions aid j f hid

theorem findAuction_id (db : DB) (j : Nat) (a : Auction)
    (h : findAuction db j = some a) : a.id = j := by
  unfold findAuction at h
  have := List.find?_some h
  simpa using this

/-! ### The strictly-decreasing invariant -/

/-- An accepted bid value is strictly below every previously accepted value
for its item: the current minimum resolves to the least previous value as
soon as one exists, and acceptance requires `0 < current_min - bid_value`. -/
theorem place_bid_accepted_lt (db : DB) (s i : Nat) (v now : Int)
    (hacc : (place_bid db s i v now).1.1 = true) :
    ∀ x ∈ acceptedValues db i, v < x := by
  obtain ⟨item, a, cm, hi, ha, hlive, hcm, hpos, hstep, hmod, hdb⟩ :=
    place_bid_accepted_inv db s i v now hacc
  intro x hx
  cases hmin : minBidValue db i with
  | none =>
    rw [minValue?_eq_none.mp hmin] at hx
    simp at hx
  | some m =>
    have hcm2 : currentMinFor db i item a = some m := by
      unfold currentMinFor
      rw [hmin]
      rfl
    have hmc : m = cm := by
      have := hcm2.symm.trans hcm
      simpa using this
    have hle : m ≤ x := minValue?_le hmin x hx
    omega

theorem Inv_of_bids_eq {db1 db2 : DB} (h : db1.bids = db2.bids)
    (hInv : Inv db2) : Inv db1 := by
  intro j
  rw [show acceptedValues db1 = acceptedValues db2 from acceptedValues_of_bids_eq h]
  exact hInv j

theorem place_bid_preserves_Inv (db : DB) (s i : Nat) (v now : Int)
    (hInv : Inv db) : Inv (place_bid db s i v now).2 := by
  rcases place_bid_db_cases db s i v now with h | ⟨hres, hdb⟩
  · rw [h]; exact hInv
  · rw [hdb]
    intro j
    rw [acceptedValues_append]
    by_cases hj : i = j
    · subst hj
      rw [if_pos rfl, List.pairwise_append]
      refine ⟨hInv i, by simp, ?_⟩
      intro x hx y hy
      have hy' : y = v := by simpa using hy
      rw [hy']
      have hacc : (place_bid db s i v now).1.1 = true := by rw [hres]
      exact place_bid_accepted_lt db s i v now hacc x hx
    · rw [if_neg hj, List.append_nil]
      exact hInv j

/-! ### Winner resolution -/

theorem getLast?_cons_eq (a : Bid) (l : List Bid) :
    (a :: l).getLast? = some (l.getLastD a) := by
  induction l generalizing a with
  | nil => rfl
  | cons b l ih =>
    rw [List.getLast?_cons_cons, ih, List.getLastD_cons]

/-- Folding the running strict minimum over a strictly decreasing tail,
starting from an accumulator above all of it, lands on the last element. -/
theorem foldl_min_getLastD (l : List Bid) (w : Bid)
    (hw : ∀ b ∈ l, b.bidValue < w.bidValue)
    (hl : l.Pairwise (fun x y => y.bidValue < x.bidValue)) :
    l.foldl (fun acc b => match acc with
      | none => some b
      | some w' => if b.bidValue < w'.bidValue then some b else acc) (some w) =
      some (l.getLastD w) := by
  induction l generalizing w with
  | nil => rfl
  | cons b l ih =>
    have hb : b.bidValue < w.bidValue := hw b (by simp)
    simp only [List.foldl_cons]
    rw [if_pos hb]
    have hpc := List.pairwise_cons.mp hl
    rw [ih b hpc.1 hpc.2, List.getLastD_cons]

/-- On a strictly decreasing bid history, the minimum-value query of the
source agrees with the spec's most-recently-accepted winner. -/
theorem winner_by_min_eq_spec (db : DB) (i : Nat) (hInv : Inv db) :
    winner_by_min db i = winner_spec db i := by
  unfold winner_by_min winner_spec
  have hpw : (bidsForItem db i).Pairwise (fun x y => y.bidValue < x.bidValue) := by
    have h := hInv i
    unfold acceptedValues at h
    rw [List.pairwise_map] at h
    exact h
  cases hl : bidsForItem db i with
  | nil => rfl
  | cons b l =>
    rw [hl] at hpw
    have hpc := List.pairwise_cons.mp hpw
    simp only [List.foldl_cons]
    rw [foldl_min_getLastD l b hpc.1 hpc.2, getLast?_cons_eq]

theorem winner_by_min_of_bids_eq {db1 db2 : DB} (h : db1.bids = db2.bids)
    (i : Nat) : winner_by_min db1 i = winner_by_min db2 i := by
  unfold winner_by_min bidsForItem
  rw [h]

/-- The invariant follows from strict decrease across the whole bid table,
since per-item histories are sublists of it. -/
theorem Inv_of_bids_pairwise (db : DB)
    (h : db.bids.Pairwise (fun x y => y.bidValue < x.bidValue)) : Inv db := by
  intro j
  unfold acceptedValues bidsForItem
  rw [List.pairwise_map]
  exact List.Pairwise.sublist (List.filter_sublist _) h

/-! ### Claims -/

/-- Claim C1, counterexample: `place_bid` performs no expiry check.  In the
scenario state the auction is LIVE with `end_time = 10`; a rule-conforming
bid submitted at `now = 20 > end_time` is accepted and a `Bid` row is
appended, contradicting the claim that such a bid is rejected with
`AuctionNotLive`. -/
theorem C1_counterexample :
    scnAuction.status = Status.LIVE ∧ scnAuction.endTime = some 10 ∧
    (10 : Int) ≤ 20 ∧
    (place_bid scnDB 7 1 950 20).1.1 = true ∧
    (place_bid scnDB 7 1 950 20).2.bids ≠ scnDB.bids := by decide

/-- Claim C1 (amended): no bid is ever accepted when the owning auction's
status is not LIVE — `place_bid` rejects with the `Auction is not live`
message and leaves the state unchanged; however `place_bid` performs no
expiry check, so a bid arriving after `end_time` on a still-LIVE auction is
not rejected on that ground (see the counterexample). -/
theorem C1_amended (db : DB) (s i : Nat) (v now : Int) (item : Item) (a : Auction)
    (hi : findItem db i = some item)
    (ha : findAuction db item.auctionId = some a)
    (hnl : a.status ≠ Status.LIVE) :
    place_bid db s i v now = ((false, auctionNotLiveMsg), db) :=
  place_bid_not_live db s i v now item a hi ha hnl

/-- Claim C1, witness of the amended theorem on the closed scenario
auction. -/
theorem C1_witness :
    place_bid closedDB 8 1 850 20 = ((false, auctionNotLiveMsg), closedDB) :=
  C1_amended closedDB 8 1 850 20 scnItem closedAuction (by decide) (by decide)
    (by decide)

/-- Claim C2: for an item resolving to a LIVE auction with determined
current minimum `cm` and positive step, `place_bid` accepts iff
`0 < cm - v` and `(cm - v) % step = 0`, and otherwise rejects with the
first failing rule in the fixed order `BidNotLower`, `BelowMinimumStep`,
`NotStepMultiple`. -/
theorem C2 (db : DB) (s i : Nat) (v now : Int) (item : Item) (a : Auction) (cm : Int)
    (hi : findItem db i = some item)
    (ha : findAuction db item.auctionId = some a)
    (hlive : a.status = Status.LIVE)
    (hcm : currentMinFor db i item a = some cm)
    (hstep : 0 < a.decrementStep) :
    ((place_bid db s i v now).1.1 = true ↔
      0 < cm - v ∧ (cm - v) % a.decrementStep = 0)
    ∧ (cm - v ≤ 0 → (place_bid db s i v now).1 = (false, bidNotLowerMsg))
    ∧ (0 < cm - v → cm - v < a.decrementStep →
        (place_bid db s i v now).1 = (false, belowMinimumStepMsg a.decrementStep))
    ∧ (a.decrementStep ≤ cm - v → (cm - v) % a.decrementStep ≠ 0 →
        (place_bid db s i v now).1 = (false, notStepMultipleMsg a.decrementStep)) := by
  rw [place_bid_eq db s i v now item a hi ha hlive]
  revert hcm
  intro hcm
  rw [hcm]
  dsimp only
  by_cases h1 : cm - v ≤ 0
  · rw [if_pos h1]
    exact ⟨⟨fun h => by simp at h, fun h => absurd h1 (not_le.mpr h.1)⟩,
      fun _ => rfl,
      fun h _ => absurd h1 (not_le.mpr h),
      fun h _ => absurd h1 (not_le.mpr (lt_of_lt_of_le hstep h))⟩
  · rw [if_neg h1]
    by_cases h2 : cm - v < a.decrementStep
    · rw [if_pos h2]
      refine ⟨⟨fun h => by simp at h, ?_⟩,
        fun h => absurd h h1, fun _ _ => rfl,
        fun h _ => absurd h2 (not_lt.mpr h)⟩
      rintro ⟨hpos, hmod⟩
      exfalso
      have hdvd : a.decrementStep ∣ cm - v := Int.dvd_of_emod_eq_zero hmod
      exact absurd (Int.le_of_dvd hpos hdvd) (not_le.mpr h2)
    · rw [if_neg h2]
      by_cases h3 : (cm - v) % a.decrementStep = 0
      · rw [if_neg (not_not.mpr h3)]
        exact ⟨⟨fun _ => ⟨lt_of_not_le h1, h3⟩, fun _ => rfl⟩,
          fun h => absurd h h1, fun _ h => absurd h h2,
          fun _ h => absurd h3 h⟩
      · rw [if_pos h3]
        exact ⟨⟨fun h => by simp at h, fun h => absurd h.2 h3⟩,
          fun h => absurd h h1, fun _ h => absurd h h2,
          fun _ _ => rfl⟩

/-- Claim C2, witness: in the fresh scenario state the current minimum is
the start price 1000 and a bid of 950 is accepted. -/
theorem C2_witness :
    (place_bid scnDB 7 1 950 1).1.1 = true :=
  ((C2 scnDB 7 1 950 1 scnItem scnAuction 1000 (by decide) (by decide)
    (by decide) (by decide) (by decide)).1).mpr (by decide)

/-- Claim C3: the strictly-decreasing invariant — for every item, each
accepted bid value is strictly below every previously accepted value for
that item (so the history is strictly decreasing and duplicate-free) — is
preserved by every operation of the engine. -/
theorem C3 (db : DB) (hInv : Inv db) :
    (∀ s i v now, Inv (place_bid db s i v now).2)
    ∧ (∀ aid now, Inv (start_auction db aid now))
    ∧ (∀ aid now, Inv (close_if_expired db aid now))
    ∧ (∀ newId aid d q u, Inv (add_item db newId aid d q u))
    ∧ (∀ newId b t st du sp now, Inv (create_auction db newId b t st du sp now).1) :=
  ⟨fun s i v now => place_bid_preserves_Inv db s i v now hInv,
   fun aid now => Inv_of_bids_eq (start_auction_bids db aid now) hInv,
   fun aid now => Inv_of_bids_eq (close_if_expired_bids db aid now) hInv,
   fun _ _ _ _ _ => Inv_of_bids_eq rfl hInv,
   fun _ _ _ _ _ _ _ => Inv_of_bids_eq rfl hInv⟩

/-- Claim C3, witness: the empty scenario state satisfies the invariant and
keeps it across an accepted bid. -/
theorem C3_witness : Inv (place_bid scnDB 7 1 950 1).2 :=
  (C3 scnDB (Inv_of_bids_pairwise scnDB (by simp [scnDB]))).1 7 1 950 1

theorem findAuction_updateAuction_self (db : DB) (aid : Nat)
    (f : Auction → Auction) (a : Auction)
    (hid : ∀ x, (f x).id = x.id) (ha : findAuction db aid = some a) :
    findAuction (updateAuction db aid f) aid = some (f a) := by
  rw [findAuction_updateAuction db aid aid f hid, ha]
  simp [findAuction_id db aid a ha]

/-- Claim C4, counterexample: `start_auction` has no status precondition.
Called on the CLOSED scenario auction it does not fail: it flips the status
back to LIVE and overwrites `start_time`, contradicting
`InvalidTransition` with no effect. -/
theorem C4_counterexample :
    statusOf closedDB 1 = some Status.CLOSED ∧
    statusOf (start_auction closedDB 1 20) 1 = some Status.LIVE ∧
    (findAuction (start_auction closedDB 1 20) 1).map Auction.startTime =
      some (some 20) := by decide

/-- Claim C4 (amended): `start_auction` performs no status check at all —
on any existing auction, whatever its status (SCHEDULED, LIVE or CLOSED),
it sets `start_time = now`, `end_time = now + duration` and
`status = LIVE`; it never fails with `InvalidTransition`. -/
theorem C4_amended (db : DB) (aid : Nat) (now : Int) (a : Auction)
    (ha : findAuction db aid = some a) :
    findAuction (start_auction db aid now) aid =
      some { a with status := Status.LIVE, startTime := some now,
                    endTime := some (now + a.durationMinutes) } := by
  unfold start_auction
  dsimp only
  have h1 : findAuction (updateAuction db aid
      (fun x => { x with status := Status.LIVE, startTime := some now })) aid =
      some { a with status := Status.LIVE, startTime := some now } :=
    findAuction_updateAuction_self db aid _ a (fun _ => rfl) ha
  rw [h1]
  dsimp only
  exact findAuction_updateAuction_self _ aid
    (fun x => { x with endTime := some (now + a.durationMinutes) })
    { a with status := Status.LIVE, startTime := some now }
    (fun _ => rfl) h1

/-- Claim C4, witness of the amended theorem on the CLOSED scenario
auction. -/
theorem C4_witness :
    findAuction (start_auction closedDB 1 20) 1 =
      some { closedAuction with
              status := Status.LIVE
              startTime := some 20
              endTime := some (20 + closedAuction.durationMinutes) } :=
  C4_amended closedDB 1 20 closedAuction (by decide)

/-- Claim C5: `close_if_expired` is idempotent.  On a CLOSED or SCHEDULED
auction it is a no-op (and not an error); on an expired LIVE auction it
sets the status to CLOSED once, and any subsequent call (at any later or
earlier clock) changes nothing. -/
theorem close_if_expired_not_live (db : DB) (aid : Nat) (now : Int) (a : Auction)
    (ha : findAuction db aid = some a) (hnl : ¬ a.status = Status.LIVE) :
    close_if_expired db aid now = db := by
  unfold close_if_expired
  simp only [ha]
  rw [if_neg hnl]

theorem C5 (db : DB) (aid : Nat) (now now2 : Int) (a : Auction)
    (ha : findAuction db aid = some a) :
    ((a.status = Status.CLOSED ∨ a.status = Status.SCHEDULED) →
      close_if_expired db aid now = db)
    ∧ (∀ e, a.status = Status.LIVE → a.endTime = some e → e ≤ now →
        statusOf (close_if_expired db aid now) aid = some Status.CLOSED
        ∧ close_if_expired (close_if_expired db aid now) aid now2 =
            close_if_expired db aid now) := by
  constructor
  · intro hcs
    refine close_if_expired_not_live db aid now a ha ?_
    rcases hcs with h | h <;> simp [h]
  · intro e hlive hend he
    have hclosed : close_if_expired db aid now =
        updateAuction db aid (fun x => { x with status := Status.CLOSED }) := by
      unfold close_if_expired
      simp only [ha]
      rw [if_pos hlive, hend]
      dsimp only
      rw [if_pos he]
    have hfind : findAuction (close_if_expired db aid now) aid =
        some { a with status := Status.CLOSED } := by
      rw [hclosed]
      exact findAuction_updateAuction_self db aid _ a (fun _ => rfl) ha
    refine ⟨?_, close_if_expired_not_live _ aid now2 _ hfind (by simp)⟩
    unfold statusOf
    rw [hfind]
    rfl

/-- Claim C5, witness: the LIVE scenario auction expired at 10; closing at
20 yields CLOSED and a second call at 30 is a no-op. -/
theorem C5_witness :
    statusOf (close_if_expired scnDB 1 20) 1 = some Status.CLOSED ∧
    close_if_expired (close_if_expired scnDB 1 20) 1 30 =
      close_if_expired scnDB 1 20 :=
  (C5 scnDB 1 20 30 scnAuction (by decide)).2 10 (by decide) (by decide)
    (by decide)

/-- Claim C6, counterexample: in the §8 scenario the fourth submission
(875, against minimum 900 and step 50, `diff = 25`) is rejected, but with
the `BelowMinimumStep` message (`diff < step` fires first), not the
`NotStepMultiple` reason the claim states. -/
theorem C6_counterexample :
    (place_bid scnDB3 8 1 875 4).1 = (false, belowMinimumStepMsg 50) ∧
    belowMinimumStepMsg 50 ≠ notStepMultipleMsg 50 := by decide

/-- Claim C6 (amended): the §8 scenario with the corrected fourth outcome:
950 accepted (new minimum 950), 900 accepted (new minimum 900), 920
rejected `BidNotLower`, 875 rejected `BelowMinimumStep` (diff = 25 < 50
fires before the multiple check), 850 accepted (new minimum 850). -/
theorem C6_amended :
    ((place_bid scnDB 7 1 950 1).1 = (true, "Bid placed") ∧
      minBidValue scnDB1 1 = some 950)
    ∧ ((place_bid scnDB1 8 1 900 2).1 = (true, "Bid placed") ∧
      minBidValue scnDB2 1 = some 900)
    ∧ (place_bid scnDB2 7 1 920 3).1 = (false, bidNotLowerMsg)
    ∧ (place_bid scnDB3 8 1 875 4).1 = (false, belowMinimumStepMsg 50)
    ∧ ((place_bid scnDB4 7 1 850 5).1 = (true, "Bid placed") ∧
      minBidValue scnDB5 1 = some 850) := by decide

/-- Claim C7, counterexample: the winning value is not immutable after
closure, because `start_auction` re-opens a CLOSED auction.  On the closed
scenario auction the winner is 900; after `start_auction` and a further
accepted bid of 850 the winner changes to 850. -/
theorem C7_counterexample :
    statusOf closedDB 1 = some Status.CLOSED ∧
    (winner_by_min closedDB 1).map Bid.bidValue = some 900 ∧
    (winner_by_min ((place_bid (start_auction closedDB 1 20) 8 1 850 21).2) 1).map
      Bid.bidValue = some 850 := by decide

/-- Claim C7 (amended): under the strictly-decreasing invariant the
minimum-value winner query equals the most recently accepted bid, and it
is `none` when no accepted bid exists; while the owning auction stays
CLOSED, `place_bid` mutates nothing and `close_if_expired` never changes
any winner — but `start_auction` can re-open a CLOSED auction, after which
the winning value can change (see the counterexample). -/
theorem C7_amended (db : DB) (hInv : Inv db) :
    (∀ i, winner_by_min db i = winner_spec db i)
    ∧ (∀ i, bidsForItem db i = [] → winner_by_min db i = none)
    ∧ (∀ s j (v now : Int) item a, findItem db j = some item →
        findAuction db item.auctionId = some a → a.status = Status.CLOSED →
        (place_bid db s j v now).2 = db)
    ∧ (∀ aid (now : Int) i, winner_by_min (close_if_expired db aid now) i =
        winner_by_min db i) := by
  refine ⟨fun i => winner_by_min_eq_spec db i hInv, ?_, ?_, ?_⟩
  · intro i h
    unfold winner_by_min
    rw [h]
    rfl
  · intro s j v now item a hi ha hcl
    rw [place_bid_not_live db s j v now item a hi ha (by simp [hcl])]
  · intro aid now i
    exact winner_by_min_of_bids_eq (close_if_expired_bids db aid now) i

/-- Claim C7, witness of the amended theorem on the closed scenario state
with one accepted bid. -/
theorem C7_witness : winner_by_min closedDB 1 = winner_spec closedDB 1 :=
  (C7_amended closedDB (Inv_of_bids_pairwise closedDB (by simp [closedDB]))).1 1

/-- Claim C8: every current minimum reported by `get_items` is the least
accepted bid value of the item when one exists (and that value occurs in
the history), or the owning auction's `start_price` when the item has no
accepted bid; and immediately after an accepted submission of value `v`,
the item's lowest accepted bid — hence its derived current minimum — is
`v`. -/
theorem C8 (db : DB) (aid : Nat) (item : Item) (cmin : Option Int)
    (s i : Nat) (v now : Int)
    (hp : (item, cmin) ∈ get_items db aid) :
    (∀ m, minBidValue db item.id = some m →
        cmin = some m ∧ m ∈ acceptedValues db item.id ∧
        ∀ x ∈ acceptedValues db item.id, m ≤ x)
    ∧ (minBidValue db item.id = none →
        ∃ a, findAuction db item.auctionId = some a ∧ cmin = a.startPrice)
    ∧ ((place_bid db s i v now).1.1 = true →
        minBidValue (place_bid db s i v now).2 i = some v) := by
  unfold get_items at hp
  rw [List.mem_filterMap] at hp
  obtain ⟨i0, hi0, hmap⟩ := hp
  rw [Option.map_eq_some'] at hmap
  obtain ⟨a, hfa, heq⟩ := hmap
  have hitem : i0 = item := congrArg Prod.fst heq
  subst hitem
  have hcmin : cmin = (minBidValue db i0.id).orElse (fun _ => a.startPrice) :=
    (congrArg Prod.snd heq).symm
  refine ⟨?_, ?_, ?_⟩
  · intro m hm
    rw [hcmin, hm]
    exact ⟨rfl, minValue?_mem hm, minValue?_le hm⟩
  · intro hm
    rw [hcmin, hm]
    exact ⟨a, hfa, rfl⟩
  · intro hacc
    obtain ⟨item2, a2, cm, hi2, ha2, hlive2, hcm2, hpos, hstep2, hmod2, hdb2⟩ :=
      place_bid_accepted_inv db s i v now hacc
    rw [hdb2]
    unfold minBidValue
    rw [acceptedValues_append]
    have hb :
        ({ itemId := i, supplierId := s, bidValue := v, bidTime := now } : Bid).itemId
          = i := rfl
    rw [if_pos hb]
    exact minValue?_append_singleton (fun x hx =>
      le_of_lt (place_bid_accepted_lt db s i v now hacc x hx))

/-- Claim C8, witness: after bids 950 and 900 the item reports minimum 900,
and an accepted bid of 850 makes the lowest accepted bid 850. -/
theorem C8_witness :
    minBidValue (place_bid scnDB2 7 1 850 5).2 1 = some 850 :=
  (C8 scnDB2 1 scnItem (some 900) 7 1 850 5 (by decide)).2.2 (by decide)

/-- Claim C9: atomicity on rejection — whenever `place_bid` returns a
rejection, for any reason, the database (auctions, items and bid history)
is returned exactly as it was: no `Bid` row is created and nothing is
mutated. -/
theorem C9 (db : DB) (s i : Nat) (v now : Int)
    (h : (place_bid db s i v now).1.1 = false) :
    (place_bid db s i v now).2 = db := by
  rcases place_bid_db_cases db s i v now with h2 | ⟨h2, _⟩
  · exact h2
  · rw [h2] at h
    simp at h

/-- Claim C9, witness: a rejected bid against the empty database leaves it
unchanged. -/
theorem C9_witness : (place_bid emptyDB 1 1 100 0).2 = emptyDB :=
  C9 emptyDB 1 1 100 0 (by decide)

/-- Claim C10: when the item and its LIVE auction resolve but the current
minimum cannot be determined — no accepted bid, NULL item `start_price`
and NULL auction `start_price` — `place_bid` rejects with the message
`Cannot determine current price` and changes nothing, an outcome outside
the spec's seven-reason taxonomy. -/
theorem C10 (db : DB) (s i : Nat) (v now : Int) (item : Item) (a : Auction)
    (hi : findItem db i = some item)
    (ha : findAuction db item.auctionId = some a)
    (hlive : a.status = Status.LIVE)
    (hnb : minBidValue db i = none)
    (hip : item.startPrice = none)
    (hap : a.startPrice = none) :
    place_bid db s i v now = ((false, cannotDeterminePriceMsg), db) := by
  rw [place_bid_eq db s i v now item a hi ha hlive]
  have hcm : currentMinFor db i item a = none := by
    unfold currentMinFor
    rw [hnb, hip, hap]
    rfl
  rw [hcm]

/-- Claim C10, witness on the NULL-price state. -/
theorem C10_witness :
    place_bid nullPriceDB 7 1 950 1 =
      ((false, cannotDeterminePriceMsg), nullPriceDB) :=
  C10 nullPriceDB 7 1 950 1 scnItem nullPriceAuction (by decide) (by decide)
    (by decide) (by decide) (by decide) (by decide)

end RA3
